import Mathlib

/-!
Shallow embedding of the ESP context with anti-replay window from
`src/libipsec/esp_context.c` (strongSwan), together with theorems about
its sequence-number interface: `verify_seqno`, `set_authenticated_seqno`,
`next_seqno`, `get_seqno`, and the constructor `esp_context_create`.

Modelling conventions:
* `u_int32_t` and `u_int` values are `Nat`s; unsigned 32-bit wraparound of
  subtraction is made explicit with `usub32` where the C code can wrap.
* The anti-replay window buffer is a `List Bool`, one entry per bit.  The C
  code allocates `window_size / CHAR_BIT + 1` bytes, but every bit index it
  ever passes to `set_window_bit` / `get_window_bit` is first reduced modulo
  `window_size`, so the trailing byte's spare bits are never addressed; the
  model keeps exactly `window_size` bits.
* Each METHOD is a pure function on the state.  `verify_seqno` performs no
  store through `this`, so its embedding returns the state unchanged next to
  the boolean; `next_seqno` returns `Option Nat` for the out-parameter
  (`none` when the C code returns FALSE and writes nothing).
-/

namespace EspCtx

/-- `UINT32_MAX` from `<stdint.h>`. -/
def UINT32_MAX : Nat := 2 ^ 32 - 1

/-- `ESP_DEFAULT_WINDOW_SIZE` (bits); the constructor always uses this. -/
def ESP_DEFAULT_WINDOW_SIZE : Nat := 128

/-- Unsigned 32-bit subtraction `a - b` (wraps modulo `2^32`), for
`a b < 2^32`. -/
def usub32 (a b : Nat) : Nat := (a + 2 ^ 32 - b) % 2 ^ 32

/-- The seqno/window state of `private_esp_context_t`: fields `last_seqno`,
`seqno_index`, `window_size`, `window`, `inbound`.  The crypter and signer
handles do not participate in the seqno interface and are kept out of this
state record (construction is modelled separately). -/
structure EspContext where
  inbound : Bool
  last_seqno : Nat
  seqno_index : Nat
  window_size : Nat
  window : List Bool
  deriving DecidableEq, Repr

/-- `get_window_bit(this, index)`. -/
def get_window_bit (c : EspContext) (index : Nat) : Bool :=
  c.window.getD index false

/-- `set_window_bit(this, index, set)`. -/
def set_window_bit (c : EspContext) (index : Nat) (set : Bool) : EspContext :=
  { c with window := c.window.set index set }

/-- `check_window(this, seqno)`: the two `u_int` subtractions wrap modulo
`2^32` before the reduction modulo `window_size`. -/
def check_window (c : EspContext) (seqno : Nat) : Bool :=
  let offset := usub32 c.last_seqno seqno
  let offset := usub32 c.seqno_index offset % c.window_size
  !get_window_bit c offset

/-- `verify_seqno(this, seqno)`: returns the boolean result together with the
(unmodified) state — the body performs no store. -/
def verify_seqno (c : EspContext) (seqno : Nat) : Bool × EspContext :=
  if !c.inbound then
    (false, c)
  else if seqno > c.last_seqno then
    (true, c)
  else if seqno > 0 && c.window_size > c.last_seqno - seqno then
    (check_window c seqno, c)
  else
    (false, c)

/-- The `for (i = 0; i < shift; ++i)` loop of `set_authenticated_seqno`:
advance `seqno_index` by one modulo `window_size` and clear the bit at the
new index, `n` times. -/
def shiftWindow : EspContext → Nat → EspContext
  | c, 0 => c
  | c, n + 1 =>
      let idx := (c.seqno_index + 1) % c.window_size
      shiftWindow (set_window_bit { c with seqno_index := idx } idx false) n

/-- `set_authenticated_seqno(this, seqno)`.  In the in-window branch the
`u_int` subtraction `seqno_index - i` wraps modulo `2^32` before the
reduction modulo `window_size`. -/
def set_authenticated_seqno (c : EspContext) (seqno : Nat) : EspContext :=
  if !c.inbound then
    c
  else if seqno > c.last_seqno then
    let shift := seqno - c.last_seqno
    let shift := if shift < c.window_size then shift else c.window_size
    let c' := shiftWindow c shift
    let c' := set_window_bit c' c'.seqno_index true
    { c' with last_seqno := seqno }
  else
    let i := c.last_seqno - seqno
    set_window_bit c (usub32 c.seqno_index i % c.window_size) true

/-- `get_seqno(this)`: returns `last_seqno`, no store. -/
def get_seqno (c : EspContext) : Nat × EspContext :=
  (c.last_seqno, c)

/-- `next_seqno(this, *seqno)`: `none` models the FALSE return with nothing
written to the out-parameter. -/
def next_seqno (c : EspContext) : Option Nat × EspContext :=
  if c.inbound || c.last_seqno == UINT32_MAX then
    (none, c)
  else
    (some (c.last_seqno + 1), { c with last_seqno := c.last_seqno + 1 })

/-- The seqno/window state as initialized by `esp_context_create`:
`INIT` zeroes `last_seqno` and `seqno_index`, sets `window_size` to the
default, and for inbound contexts the window buffer is allocated and
zeroed. -/
def freshContext (inbound : Bool) : EspContext :=
  { inbound := inbound
    last_seqno := 0
    seqno_index := 0
    window_size := ESP_DEFAULT_WINDOW_SIZE
    window := if inbound then List.replicate ESP_DEFAULT_WINDOW_SIZE false else [] }

/-- Well-formedness maintained by every context the constructor can reach:
the window size is the (only) configured default, the index is in range, the
window buffer has one entry per window bit, and `last_seqno` fits in 32
bits. -/
def WF (c : EspContext) : Prop :=
  c.window_size = 128 ∧ c.seqno_index < c.window_size ∧
    c.window.length = c.window_size ∧ c.last_seqno < 2 ^ 32

instance (c : EspContext) : Decidable (WF c) := by
  unfold WF; infer_instance

/-- Iterate `next_seqno` `k` times, keeping only the state. -/
def nextIter (c : EspContext) : Nat → EspContext
  | 0 => c
  | k + 1 => (next_seqno (nextIter c k)).2

/-- Fold a list of `set_authenticated_seqno` calls over a state. -/
def commitAll (c : EspContext) (l : List Nat) : EspContext :=
  l.foldl set_authenticated_seqno c

/-- `s` lies inside the anti-replay window of `c`: positive, at most the
high-water mark, and strictly less than `window_size` behind it. -/
def InWindow (c : EspContext) (s : Nat) : Prop :=
  0 < s ∧ s ≤ c.last_seqno ∧ c.last_seqno - s < c.window_size

instance (c : EspContext) (s : Nat) : Decidable (InWindow c s) := by
  unfold InWindow; infer_instance

/-- The window slot that corresponds to an in-window seqno `s`: the spec's
index expression `(seqno_index - (last_seqno - s)) mod window_size`,
written in `Nat` as `(seqno_index + window_size - (last_seqno - s)) mod
window_size` (equivalent for `last_seqno - s < window_size` and
`seqno_index < window_size`). -/
def slot (c : EspContext) (s : Nat) : Nat :=
  (c.seqno_index + c.window_size - (c.last_seqno - s)) % c.window_size

/-! Constructor.  The crypto factory (`lib->crypto`) is external to the
repository sources; only the dispatch logic of `esp_context_create` is in
`esp_context.c`.  The algorithm identifiers are the wire-compatible IKEv2
registry values the spec refers to. -/

/-- `ENCR_AES_CBC` (IKEv2 transform type 1 registry). -/
def ENCR_AES_CBC : Nat := 12

/-- `AUTH_HMAC_SHA1_96` (IKEv2 transform type 3 registry). -/
def AUTH_HMAC_SHA1_96 : Nat := 2

/-- `AUTH_HMAC_SHA2_256_128`. -/
def AUTH_HMAC_SHA2_256_128 : Nat := 12

/-- `AUTH_HMAC_SHA2_384_192`. -/
def AUTH_HMAC_SHA2_384_192 : Nat := 13

/-- `AUTH_HMAC_SHA2_512_256`. -/
def AUTH_HMAC_SHA2_512_256 : Nat := 14

/-- Modelled from the spec: the crypto factory behind
`lib->crypto->create_crypter` / `create_signer` and the `set_key` methods is
not part of the repository sources.  Spec section 6: `create_cipher(alg_id,
key_len)` returns a handle or null, `create_mac(alg_id)` returns a handle or
null, and `set_key` returns success or failure.  Creating a supported
primitive is modelled as succeeding (the spec lists AES-CBC and the four
HMACs as supported); whether each `set_key` succeeds is an abstract
environment parameter. -/
structure CryptoEnv where
  enc_set_key_ok : Bool
  int_set_key_ok : Bool
  deriving DecidableEq, Repr

/-- Outcome of `esp_context_create`, with resource accounting: which of the
two owned handles (crypter, signer) were acquired and which were released
before returning. -/
structure CreateResult where
  ctx : Option EspContext
  crypter_acquired : Bool
  crypter_released : Bool
  signer_acquired : Bool
  signer_released : Bool
  deriving DecidableEq, Repr

/-- `esp_context_create(enc_alg, enc_key, int_alg, int_key, inbound)`:
the `switch` on `enc_alg` only creates a crypter for `ENCR_AES_CBC`; the
`switch` on `int_alg` only creates a signer for the four supported HMACs.
Each failure path calls `destroy`, which releases whatever handles exist
(`DESTROY_IF`), and returns NULL.  On success the context state is the
freshly initialized seqno/window state. -/
def esp_context_create (env : CryptoEnv) (enc_alg int_alg : Nat)
    (inbound : Bool) : CreateResult :=
  let crypter_ok := enc_alg == ENCR_AES_CBC
  if !crypter_ok then
    { ctx := none, crypter_acquired := false, crypter_released := false,
      signer_acquired := false, signer_released := false }
  else if !env.enc_set_key_ok then
    { ctx := none, crypter_acquired := true, crypter_released := true,
      signer_acquired := false, signer_released := false }
  else
    let signer_ok := int_alg == AUTH_HMAC_SHA1_96 ||
      int_alg == AUTH_HMAC_SHA2_256_128 || int_alg == AUTH_HMAC_SHA2_384_192 ||
      int_alg == AUTH_HMAC_SHA2_512_256
    if !signer_ok then
      { ctx := none, crypter_acquired := true, crypter_released := true,
        signer_acquired := false, signer_released := false }
    else if !env.int_set_key_ok then
      { ctx := none, crypter_acquired := true, crypter_released := true,
        signer_acquired := true, signer_released := true }
    else
      { ctx := some (freshContext inbound), crypter_acquired := true,
        crypter_released := false, signer_acquired := true,
        signer_released := false }

/-! Helper lemmas. -/

theorem getD_set_self (l : List Bool) (i : Nat) (b : Bool) (h : i < l.length) :
    (l.set i b).getD i false = b := by
  simp [List.getD_eq_getElem?_getD, List.getElem?_set, h]

theorem getD_set_ne (l : List Bool) (i j : Nat) (b : Bool) (h : i ≠ j) :
    (l.set i b).getD j false = l.getD j false := by
  simp [List.getD_eq_getElem?_getD, List.getElem?_set, h]

theorem getD_set_true_of_true (l : List Bool) (i j : Nat)
    (h : l.getD j false = true) : (l.set i true).getD j false = true := by
  by_cases hij : i = j
  · subst hij
    by_cases hi : i < l.length
    · exact getD_set_self l i true hi
    · rw [List.set_eq_of_length_le (by omega)]; exact h
  · rw [getD_set_ne l i j true hij]; exact h

theorem usub32_eq_sub (a b : Nat) (hb : b ≤ a) (ha : a < 2 ^ 32) :
    usub32 a b = a - b := by
  unfold usub32; omega

theorem usub32_mod128 (a b : Nat) (hb : b < 2 ^ 32) :
    usub32 a b % 128 = (a + 128 - b % 128) % 128 := by
  unfold usub32; omega

theorem shiftWindow_fields (n : Nat) : ∀ c : EspContext,
    (shiftWindow c n).inbound = c.inbound ∧
    (shiftWindow c n).last_seqno = c.last_seqno ∧
    (shiftWindow c n).window_size = c.window_size ∧
    (shiftWindow c n).window.length = c.window.length := by
  induction n with
  | zero => intro c; exact ⟨rfl, rfl, rfl, rfl⟩
  | succ n ih =>
      intro c
      have h := ih (set_window_bit
        { c with seqno_index := (c.seqno_index + 1) % c.window_size }
        ((c.seqno_index + 1) % c.window_size) false)
      simpa [shiftWindow, set_window_bit] using h

theorem shiftWindow_seqno_index (n : Nat) : ∀ c : EspContext,
    0 < c.window_size → c.seqno_index < c.window_size →
    (shiftWindow c n).seqno_index = (c.seqno_index + n) % c.window_size := by
  induction n with
  | zero =>
      intro c _ hidx
      simpa [shiftWindow] using (Nat.mod_eq_of_lt hidx).symm
  | succ n ih =>
      intro c hws hidx
      have step := ih (set_window_bit
        { c with seqno_index := (c.seqno_index + 1) % c.window_size }
        ((c.seqno_index + 1) % c.window_size) false)
        (by simpa [set_window_bit] using hws)
        (by simpa [set_window_bit] using Nat.mod_lt (c.seqno_index + 1) hws)
      rw [show shiftWindow c (n + 1) = shiftWindow (set_window_bit
        { c with seqno_index := (c.seqno_index + 1) % c.window_size }
        ((c.seqno_index + 1) % c.window_size) false) n from rfl, step]
      simp only [set_window_bit]
      rw [Nat.mod_add_mod]
      congr 1
      omega

theorem mod_shift_eq (idx t ws : Nat) :
    ((idx + 1) % ws + 1 + t) % ws = (idx + 1 + (t + 1)) % ws := by
  rw [add_assoc, Nat.mod_add_mod]
  congr 1
  omega

theorem shiftWindow_succ (c : EspContext) (n : Nat) :
    shiftWindow c (n + 1) = shiftWindow (set_window_bit
      { c with seqno_index := (c.seqno_index + 1) % c.window_size }
      ((c.seqno_index + 1) % c.window_size) false) n := rfl

theorem shiftWindow_getD (n : Nat) : ∀ (c : EspContext) (j : Nat),
    0 < c.window_size → c.window.length = c.window_size → j < c.window_size →
    get_window_bit (shiftWindow c n) j =
      if ∃ t, t < n ∧ j = (c.seqno_index + 1 + t) % c.window_size then false
      else get_window_bit c j := by
  induction n with
  | zero =>
      intro c j _ _ _
      simp [shiftWindow]
  | succ n ih =>
      rintro ⟨ib, ls, idx, ws, w⟩ j hws hlen hj
      simp only at hws hlen hj
      show get_window_bit
          (shiftWindow ⟨ib, ls, (idx + 1) % ws, ws, w.set ((idx + 1) % ws) false⟩ n) j =
        if ∃ t, t < n + 1 ∧ j = (idx + 1 + t) % ws then false
        else w.getD j false
      rw [ih ⟨ib, ls, (idx + 1) % ws, ws, w.set ((idx + 1) % ws) false⟩ j hws
        (by simpa using hlen) hj]
      show (if ∃ t, t < n ∧ j = ((idx + 1) % ws + 1 + t) % ws then false
          else (w.set ((idx + 1) % ws) false).getD j false) =
        (if ∃ t, t < n + 1 ∧ j = (idx + 1 + t) % ws then false
          else w.getD j false)
      by_cases h1 : ∃ t, t < n ∧ j = ((idx + 1) % ws + 1 + t) % ws
      · rw [if_pos h1]
        obtain ⟨t, ht, hjt⟩ := h1
        rw [if_pos ⟨t + 1, by omega, by rw [hjt, mod_shift_eq]⟩]
      · rw [if_neg h1]
        by_cases h2 : j = (idx + 1) % ws
        · have hlt : (idx + 1) % ws < w.length := by
            rw [hlen]; exact Nat.mod_lt _ hws
          rw [h2, getD_set_self _ _ _ hlt,
            if_pos ⟨0, by omega, by simp [h2]⟩]
        · rw [getD_set_ne _ _ _ _ fun h => h2 h.symm, if_neg ?_]
          rintro ⟨t, ht, hjt⟩
          match t, hjt with
          | 0, hjt => exact h2 (by simpa using hjt)
          | t' + 1, hjt =>
              exact h1 ⟨t', by omega, by rw [hjt, mod_shift_eq]⟩

theorem cover128 (idx j : Nat) (hj : j < 128) :
    ∃ t, t < 128 ∧ j = (idx + 1 + t) % 128 :=
  ⟨(j + 128 - (idx + 1) % 128) % 128, by omega, by omega⟩

/-- Unfolding: the outbound early return. -/
theorem set_authenticated_seqno_outbound (c : EspContext) (s : Nat)
    (hin : c.inbound = false) : set_authenticated_seqno c s = c := by
  unfold set_authenticated_seqno
  rw [if_pos (by simp [hin])]

/-- Unfolding: the advance branch (`seqno > last_seqno`). -/
theorem set_authenticated_seqno_advance (c : EspContext) (s : Nat)
    (hin : c.inbound = true) (hs : s > c.last_seqno) :
    set_authenticated_seqno c s =
      { set_window_bit
          (shiftWindow c (min (s - c.last_seqno) c.window_size))
          (shiftWindow c (min (s - c.last_seqno) c.window_size)).seqno_index
          true
        with last_seqno := s } := by
  unfold set_authenticated_seqno
  rw [if_neg (by simp [hin]), if_pos hs]
  have hmin : (if s - c.last_seqno < c.window_size then s - c.last_seqno
      else c.window_size) = min (s - c.last_seqno) c.window_size := by
    split_ifs <;> omega
  rw [show (min (s - c.last_seqno) c.window_size) = (if s - c.last_seqno <
    c.window_size then s - c.last_seqno else c.window_size) from hmin.symm]

/-- Unfolding: the in-window branch (`seqno ≤ last_seqno`). -/
theorem set_authenticated_seqno_inwin (c : EspContext) (s : Nat)
    (hin : c.inbound = true) (hs : ¬ s > c.last_seqno) :
    set_authenticated_seqno c s =
      set_window_bit c (usub32 c.seqno_index (c.last_seqno - s) %
        c.window_size) true := by
  unfold set_authenticated_seqno
  rw [if_neg (by simp [hin]), if_neg hs]

theorem set_authenticated_seqno_fields (c : EspContext) (s : Nat) :
    (set_authenticated_seqno c s).inbound = c.inbound ∧
    (set_authenticated_seqno c s).window_size = c.window_size ∧
    (set_authenticated_seqno c s).window.length = c.window.length := by
  cases hin : c.inbound
  · rw [set_authenticated_seqno_outbound c s hin]
    exact ⟨hin, rfl, rfl⟩
  · by_cases hs : s > c.last_seqno
    · rw [set_authenticated_seqno_advance c s hin hs]
      obtain ⟨hi, hl, hw, hlen⟩ := shiftWindow_fields
        (min (s - c.last_seqno) c.window_size) c
      simp only [set_window_bit, List.length_set]
      exact ⟨by rw [hi, hin], hw, hlen⟩
    · rw [set_authenticated_seqno_inwin c s hin hs]
      exact ⟨hin, rfl, by simp [set_window_bit]⟩

theorem WF_set_authenticated_seqno (c : EspContext) (s : Nat) (hwf : WF c)
    (hs : s < 2 ^ 32) : WF (set_authenticated_seqno c s) := by
  obtain ⟨hws, hidx, hlen, hlast⟩ := hwf
  obtain ⟨hi, hw, hl⟩ := set_authenticated_seqno_fields c s
  have h0 : 0 < c.window_size := by omega
  refine ⟨by rw [hw, hws], ?_, by rw [hl, hw, hlen], ?_⟩ <;>
    cases hin : c.inbound
  · rw [set_authenticated_seqno_outbound c s hin]; exact hidx
  · by_cases hgt : s > c.last_seqno
    · rw [set_authenticated_seqno_advance c s hin hgt]
      simp only [set_window_bit]
      rw [shiftWindow_seqno_index _ c h0 hidx,
        (shiftWindow_fields (min (s - c.last_seqno) c.window_size) c).2.2.1]
      exact Nat.mod_lt _ h0
    · rw [set_authenticated_seqno_inwin c s hin hgt]
      exact hidx
  · rw [set_authenticated_seqno_outbound c s hin]; exact hlast
  · by_cases hgt : s > c.last_seqno
    · rw [set_authenticated_seqno_advance c s hin hgt]
      exact hs
    · rw [set_authenticated_seqno_inwin c s hin hgt]
      exact hlast

theorem next_seqno_fail (c : EspContext)
    (h : c.inbound = true ∨ c.last_seqno = UINT32_MAX) :
    next_seqno c = (none, c) := by
  unfold next_seqno
  rcases h with h | h
  · rw [if_pos (by simp [h])]
  · rw [if_pos (by simp [h])]

theorem next_seqno_ok (c : EspContext) (h1 : c.inbound = false)
    (h2 : c.last_seqno ≠ UINT32_MAX) :
    next_seqno c =
      (some (c.last_seqno + 1), { c with last_seqno := c.last_seqno + 1 }) := by
  unfold next_seqno
  rw [if_neg (by simp [h1, h2])]

theorem nextIter_inbound (c : EspContext) (k : Nat) :
    (nextIter c k).inbound = c.inbound := by
  induction k with
  | zero => rfl
  | succ k ih =>
      show (next_seqno (nextIter c k)).2.inbound = c.inbound
      unfold next_seqno
      split_ifs
      · exact ih
      · exact ih

theorem verify_seqno_state (c : EspContext) (s : Nat) :
    (verify_seqno c s).2 = c := by
  unfold verify_seqno
  split_ifs <;> rfl

/-! Claim theorems. -/

/-- C8: `verify_seqno` is non-mutating: the state component it returns is
the input context itself, so `last_seqno`, `seqno_index`, the window
contents and the `inbound` flag are all identical before and after the
call; only the boolean is produced. -/
theorem verify_seqno_nonmutating (c : EspContext) (s : Nat) :
    (verify_seqno c s).2 = c :=
  verify_seqno_state c s

/-- C5: for every context and every operation of the interface with any
argument, `last_seqno` after the call is at least its value before the
call. -/
theorem last_seqno_monotone (c : EspContext) (s : Nat) :
    c.last_seqno ≤ (set_authenticated_seqno c s).last_seqno ∧
    c.last_seqno ≤ (next_seqno c).2.last_seqno ∧
    (verify_seqno c s).2.last_seqno = c.last_seqno ∧
    (get_seqno c).2.last_seqno = c.last_seqno := by
  refine ⟨?_, ?_, ?_, rfl⟩
  · cases hin : c.inbound
    · rw [set_authenticated_seqno_outbound c s hin]
    · by_cases hgt : s > c.last_seqno
      · rw [set_authenticated_seqno_advance c s hin hgt]
        exact le_of_lt hgt
      · rw [set_authenticated_seqno_inwin c s hin hgt]
        exact le_rfl
  · unfold next_seqno
    split_ifs
    · exact le_rfl
    · exact Nat.le_succ _
  · rw [verify_seqno_state]

/-- C6: direction gating: on an outbound context `verify_seqno` returns
false for every argument and `set_authenticated_seqno` leaves the state
unchanged for every argument; on an inbound context `next_seqno` returns
failure and changes nothing, in every state. -/
theorem direction_gating (c : EspContext) (s : Nat) :
    (c.inbound = false →
      (verify_seqno c s).1 = false ∧ set_authenticated_seqno c s = c) ∧
    (c.inbound = true → next_seqno c = (none, c)) := by
  constructor
  · intro hin
    refine ⟨?_, set_authenticated_seqno_outbound c s hin⟩
    unfold verify_seqno
    rw [if_pos (by simp [hin])]
  · intro hin
    exact next_seqno_fail c (Or.inl hin)

/-- C6 witness: the gating evaluated on concrete outbound and inbound
contexts. -/
theorem direction_gating_witness :
    ((verify_seqno (freshContext false) 7).1 = false ∧
      set_authenticated_seqno (freshContext false) 7 = freshContext false) ∧
    next_seqno (freshContext true) = (none, freshContext true) :=
  ⟨(direction_gating (freshContext false) 7).1 rfl,
    (direction_gating (freshContext true) 7).2 rfl⟩

set_option maxRecDepth 20000 in
/-- C4 counterexample: on a fresh inbound context (window size 128), after
`set_authenticated_seqno(200)`, `verify_seqno(72)` returns false, not true
as the claim states: `200 - 72 = 128` hits the window edge and the strict
comparison `window_size > last_seqno - seqno` rejects it. -/
theorem s3_edge_counterexample :
    (verify_seqno (set_authenticated_seqno (freshContext true) 200) 72).1
      = false := by
  decide

set_option maxRecDepth 20000 in
/-- C4 (amended): on a fresh inbound context with window size 128, after
`set_authenticated_seqno(200)`, `verify_seqno(71)` and `verify_seqno(72)`
both return false (the boundary `last_seqno - s = window_size` is
rejected), and `verify_seqno(73)` returns true. -/
theorem s3_below_window :
    (verify_seqno (set_authenticated_seqno (freshContext true) 200) 71).1
        = false ∧
    (verify_seqno (set_authenticated_seqno (freshContext true) 200) 72).1
        = false ∧
    (verify_seqno (set_authenticated_seqno (freshContext true) 200) 73).1
        = true := by
  decide

/-- C2: for every outbound context, `next_seqno` fails (returning failure
and leaving the state untouched) exactly when `last_seqno = 2^32 - 1`; once
there, every further call fails and `last_seqno` stays; and starting from
`last_seqno = 0` the successive successful calls return exactly
`1, 2, 3, ...`: after `k` calls `last_seqno = min k (2^32 - 1)` and while
`k < 2^32 - 1` the next call returns `k + 1`. -/
theorem next_seqno_sequence (c : EspContext) (hout : c.inbound = false) :
    (((next_seqno c).1 = none ∧ (next_seqno c).2 = c) ↔
      c.last_seqno = UINT32_MAX) ∧
    (c.last_seqno = UINT32_MAX → ∀ k, nextIter c k = c) ∧
    (c.last_seqno = 0 → ∀ k,
      (nextIter c k).last_seqno = min k UINT32_MAX ∧
      (k < UINT32_MAX → (next_seqno (nextIter c k)).1 = some (k + 1))) := by
  refine ⟨?_, ?_, ?_⟩
  · constructor
    · intro ⟨h1, _⟩
      by_contra hne
      rw [next_seqno_ok c hout hne] at h1
      exact Option.noConfusion h1
    · intro h
      rw [next_seqno_fail c (Or.inr h)]
      exact ⟨rfl, rfl⟩
  · intro h k
    induction k with
    | zero => rfl
    | succ k ih =>
        show (next_seqno (nextIter c k)).2 = c
        rw [ih, next_seqno_fail c (Or.inr h)]
  · intro h0 k
    induction k with
    | zero =>
        refine ⟨?_, fun hk => ?_⟩
        · show c.last_seqno = min 0 UINT32_MAX
          rw [h0, Nat.zero_min]
        rw [show nextIter c 0 = c from rfl,
          next_seqno_ok c hout (by omega), h0]
    | succ k ih =>
        obtain ⟨ihlast, ihok⟩ := ih
        have hinb : (nextIter c k).inbound = false := by
          rw [nextIter_inbound, hout]
        by_cases hk : k < UINT32_MAX
        · have hne : (nextIter c k).last_seqno ≠ UINT32_MAX := by
            rw [ihlast]; unfold UINT32_MAX at hk ⊢; omega
          have hstep : nextIter c (k + 1) =
              { nextIter c k with last_seqno := (nextIter c k).last_seqno + 1 } := by
            show (next_seqno (nextIter c k)).2 = _
            rw [next_seqno_ok _ hinb hne]
          constructor
          · rw [hstep]
            show (nextIter c k).last_seqno + 1 = min (k + 1) UINT32_MAX
            rw [ihlast]; unfold UINT32_MAX at hk ⊢; omega
          · intro hk1
            have hne1 : (nextIter c (k + 1)).last_seqno ≠ UINT32_MAX := by
              rw [hstep]
              show (nextIter c k).last_seqno + 1 ≠ UINT32_MAX
              rw [ihlast]; unfold UINT32_MAX at hk1 ⊢; omega
            have hinb1 : (nextIter c (k + 1)).inbound = false := by
              rw [nextIter_inbound, hout]
            rw [next_seqno_ok _ hinb1 hne1, hstep]
            show some ((nextIter c k).last_seqno + 1 + 1) = some (k + 1 + 1)
            rw [ihlast]
            unfold UINT32_MAX at hk ⊢
            congr 1
            omega
        · have heq : (nextIter c k).last_seqno = UINT32_MAX := by
            rw [ihlast]; unfold UINT32_MAX at hk ⊢; omega
          have hstep : nextIter c (k + 1) = nextIter c k := by
            show (next_seqno (nextIter c k)).2 = _
            rw [next_seqno_fail _ (Or.inr heq)]
          refine ⟨?_, fun hk1 => absurd hk1 (by omega)⟩
          rw [hstep, ihlast]
          unfold UINT32_MAX at hk ⊢
          omega

/-- C2 witness: the characterization applied to a concrete fresh outbound
context, checking the first three returned values. -/
theorem next_seqno_sequence_witness :
    (next_seqno (nextIter (freshContext false) 0)).1 = some 1 ∧
    (next_seqno (nextIter (freshContext false) 1)).1 = some 2 ∧
    (next_seqno (nextIter (freshContext false) 2)).1 = some 3 :=
  ⟨((next_seqno_sequence (freshContext false) rfl).2.2 rfl 0).2 (by decide),
    ((next_seqno_sequence (freshContext false) rfl).2.2 rfl 1).2 (by decide),
    ((next_seqno_sequence (freshContext false) rfl).2.2 rfl 2).2 (by decide)⟩

theorem verify_ahead (c : EspContext) (s : Nat) (hin : c.inbound = true)
    (h : s > c.last_seqno) : (verify_seqno c s).1 = true := by
  unfold verify_seqno
  rw [if_neg (by simp [hin]), if_pos h]

theorem verify_reject (c : EspContext) (s : Nat) (hin : c.inbound = true)
    (hle : s ≤ c.last_seqno) (h : s = 0 ∨ c.window_size ≤ c.last_seqno - s) :
    (verify_seqno c s).1 = false := by
  unfold verify_seqno
  rcases h with h | h <;>
    rw [if_neg (by simp [hin]), if_neg (by omega), if_neg (by
      simp only [Bool.and_eq_true, decide_eq_true_eq, not_and]
      intro hpos
      omega)]

theorem verify_inwin_eq (c : EspContext) (s : Nat) (hin : c.inbound = true)
    (h0 : 0 < s) (hle : s ≤ c.last_seqno)
    (hwin : c.last_seqno - s < c.window_size) (hws : c.window_size = 128)
    (hlast : c.last_seqno < 2 ^ 32) :
    (verify_seqno c s).1 = !get_window_bit c (slot c s) := by
  have hidxeq : usub32 c.seqno_index (c.last_seqno - s) % c.window_size
      = slot c s := by
    unfold slot
    rw [hws] at hwin ⊢
    rw [usub32_mod128 _ _ (by omega)]
    omega
  unfold verify_seqno
  rw [if_neg (by simp [hin]), if_neg (by omega), if_pos (by
    simp only [Bool.and_eq_true, decide_eq_true_eq]
    omega)]
  show check_window c s = _
  unfold check_window
  rw [usub32_eq_sub _ _ hle hlast]
  show (!get_window_bit c (usub32 c.seqno_index (c.last_seqno - s) %
    c.window_size)) = !get_window_bit c (slot c s)
  rw [hidxeq]

/-- C1: on every inbound context, `verify_seqno(s)` follows exactly the
three-case policy: accept when `s` is ahead of the high-water mark; for
in-window `s` (positive, `last_seqno - s < window_size`) accept iff the
window bit at `(seqno_index - (last_seqno - s)) mod window_size` is 0;
reject when `s = 0` or `last_seqno - s ≥ window_size` — so
`verify_seqno(0)` is false in every state. -/
theorem verify_seqno_policy (c : EspContext) (s : Nat) (hwf : WF c)
    (hin : c.inbound = true) :
    (s > c.last_seqno → (verify_seqno c s).1 = true) ∧
    (0 < s → s ≤ c.last_seqno → c.last_seqno - s < c.window_size →
      ((verify_seqno c s).1 = true ↔
        get_window_bit c ((c.seqno_index + c.window_size -
          (c.last_seqno - s)) % c.window_size) = false)) ∧
    ((s = 0 ∨ (s ≤ c.last_seqno ∧ c.window_size ≤ c.last_seqno - s)) →
      (verify_seqno c s).1 = false) := by
  obtain ⟨hws, hidx, hlen, hlast⟩ := hwf
  refine ⟨verify_ahead c s hin, ?_, ?_⟩
  · intro h0 hle hwin
    rw [verify_inwin_eq c s hin h0 hle hwin hws hlast]
    show (!get_window_bit c (slot c s)) = true ↔ _
    unfold slot
    cases get_window_bit c ((c.seqno_index + c.window_size -
      (c.last_seqno - s)) % c.window_size) <;> simp
  · rintro (h | ⟨hle, hbig⟩)
    · exact verify_reject c s hin (by omega) (Or.inl h)
    · exact verify_reject c s hin hle (Or.inr hbig)

set_option maxRecDepth 20000 in
/-- C1 witness: the policy applied to the concrete inbound context obtained
by committing 5 on a fresh context, at the in-window seqno 3. -/
theorem verify_seqno_policy_witness :
    (verify_seqno (set_authenticated_seqno (freshContext true) 5) 3).1
      = true := by
  have h := (verify_seqno_policy (set_authenticated_seqno (freshContext true) 5)
    3 (by decide) (by decide)).2.1 (by decide) (by decide) (by decide)
  rw [h]
  decide

/-- C3: advance case of `set_authenticated_seqno`: for inbound `c` and
`s > last_seqno`, with `shift = min (s - last_seqno) window_size`, the index
advances `shift` steps modulo `window_size`, the bit at each index stepped
onto is cleared, the bit at the final index is set, and `last_seqno`
becomes `s`; when `shift = window_size` the index is unchanged and the
window holds exactly the one bit at that index. -/
theorem set_authenticated_seqno_advance_policy (c : EspContext) (s : Nat)
    (hwf : WF c) (hin : c.inbound = true) (hgt : s > c.last_seqno) :
    (set_authenticated_seqno c s).last_seqno = s ∧
    (set_authenticated_seqno c s).seqno_index =
      (c.seqno_index + min (s - c.last_seqno) c.window_size) %
        c.window_size ∧
    (∀ j, j < c.window_size →
      (get_window_bit (set_authenticated_seqno c s) j = true ↔
        (j = (c.seqno_index + min (s - c.last_seqno) c.window_size) %
            c.window_size ∨
          (get_window_bit c j = true ∧
            ¬∃ t, t < min (s - c.last_seqno) c.window_size ∧
              j = (c.seqno_index + 1 + t) % c.window_size)))) ∧
    (min (s - c.last_seqno) c.window_size = c.window_size →
      (set_authenticated_seqno c s).seqno_index = c.seqno_index ∧
      ∀ j, j < c.window_size →
        (get_window_bit (set_authenticated_seqno c s) j = true ↔
          j = c.seqno_index)) := by
  obtain ⟨hws, hidx, hlen, hlast⟩ := hwf
  have h0 : 0 < c.window_size := by omega
  have hd := set_authenticated_seqno_advance c s hin hgt
  have hdi : (shiftWindow c (min (s - c.last_seqno) c.window_size)).seqno_index
      = (c.seqno_index + min (s - c.last_seqno) c.window_size) %
        c.window_size :=
    shiftWindow_seqno_index _ c h0 hidx
  have hdlen : (shiftWindow c (min (s - c.last_seqno)
      c.window_size)).window.length = c.window_size := by
    rw [(shiftWindow_fields _ c).2.2.2, hlen]
  have hidx2 : (c.seqno_index + min (s - c.last_seqno) c.window_size) %
      c.window_size < c.window_size := Nat.mod_lt _ h0
  have hplast : (set_authenticated_seqno c s).last_seqno = s := by rw [hd]
  have hpidx : (set_authenticated_seqno c s).seqno_index =
      (c.seqno_index + min (s - c.last_seqno) c.window_size) %
        c.window_size := by
    rw [hd]
    exact hdi
  have hpwin : (set_authenticated_seqno c s).window =
      (shiftWindow c (min (s - c.last_seqno) c.window_size)).window.set
        ((c.seqno_index + min (s - c.last_seqno) c.window_size) %
          c.window_size) true := by
    rw [hd]
    show (shiftWindow c (min (s - c.last_seqno) c.window_size)).window.set
      (shiftWindow c (min (s - c.last_seqno) c.window_size)).seqno_index true
      = _
    rw [hdi]
  have hbits : ∀ j, j < c.window_size →
      (get_window_bit (set_authenticated_seqno c s) j = true ↔
        (j = (c.seqno_index + min (s - c.last_seqno) c.window_size) %
            c.window_size ∨
          (get_window_bit c j = true ∧
            ¬∃ t, t < min (s - c.last_seqno) c.window_size ∧
              j = (c.seqno_index + 1 + t) % c.window_size))) := by
    intro j hj
    show ((set_authenticated_seqno c s).window.getD j false = true ↔ _)
    rw [hpwin]
    by_cases he : j = (c.seqno_index + min (s - c.last_seqno) c.window_size)
        % c.window_size
    · rw [he, getD_set_self _ _ _ (by rw [hdlen]; exact hidx2)]
      simp
    · rw [getD_set_ne _ _ _ _ fun h => he h.symm]
      have hgd := shiftWindow_getD (min (s - c.last_seqno) c.window_size) c
        j h0 hlen hj
      rw [show (shiftWindow c (min (s - c.last_seqno)
        c.window_size)).window.getD j false
        = get_window_bit (shiftWindow c (min (s - c.last_seqno)
          c.window_size)) j from rfl, hgd]
      by_cases hcl : ∃ t, t < min (s - c.last_seqno) c.window_size ∧
          j = (c.seqno_index + 1 + t) % c.window_size
      · rw [if_pos hcl]
        constructor
        · intro h
          exact (Bool.false_ne_true h).elim
        · rintro (h | ⟨hb, hnc⟩)
          · exact absurd h he
          · exact absurd hcl hnc
      · rw [if_neg hcl]
        constructor
        · intro hb
          exact Or.inr ⟨hb, hcl⟩
        · rintro (h | ⟨hb, _⟩)
          · exact absurd h he
          · exact hb
  refine ⟨hplast, hpidx, hbits, ?_⟩
  intro hfull
  constructor
  · rw [hpidx, hfull, Nat.add_mod_right, Nat.mod_eq_of_lt hidx]
  · intro j hj
    rw [hbits j hj]
    constructor
    · rintro (h | ⟨hb, hnc⟩)
      · rw [hfull, Nat.add_mod_right, Nat.mod_eq_of_lt hidx] at h
        exact h
      · exfalso
        apply hnc
        rw [hfull, hws]
        rw [hws] at hj
        exact cover128 c.seqno_index j hj
    · intro h
      left
      rw [hfull, Nat.add_mod_right, Nat.mod_eq_of_lt hidx]
      exact h

set_option maxRecDepth 20000 in
/-- C3 witness: the advance characterization applied to a fresh inbound
context committing 5. -/
theorem set_authenticated_seqno_advance_policy_witness :
    (set_authenticated_seqno (freshContext true) 5).last_seqno = 5 :=
  (set_authenticated_seqno_advance_policy (freshContext true) 5 (by decide)
    rfl (by decide)).1

/-- C10: `set_authenticated_seqno` does not check its precondition: on an
inbound context, a below-window seqno `s` (`s ≤ last_seqno` and
`last_seqno - s ≥ window_size`, which `verify_seqno` rejects) still takes
the in-window branch and sets the window bit at
`(seqno_index - (last_seqno - s)) mod window_size`; that bit is the slot of
the in-window seqno `s + k·window_size` (`k = (last_seqno - s) /
window_size`), so this never-committed in-window seqno is afterwards
rejected by `verify_seqno`. -/
theorem set_authenticated_seqno_below_window (c : EspContext) (s : Nat)
    (hwf : WF c) (hin : c.inbound = true) (hle : s ≤ c.last_seqno)
    (hbelow : c.window_size ≤ c.last_seqno - s) :
    set_authenticated_seqno c s =
      set_window_bit c ((c.seqno_index + c.window_size -
        (c.last_seqno - s) % c.window_size) % c.window_size) true ∧
    0 < s + ((c.last_seqno - s) / c.window_size) * c.window_size ∧
    s < s + ((c.last_seqno - s) / c.window_size) * c.window_size ∧
    s + ((c.last_seqno - s) / c.window_size) * c.window_size ≤
      c.last_seqno ∧
    c.last_seqno - (s + ((c.last_seqno - s) / c.window_size) *
      c.window_size) < c.window_size ∧
    (verify_seqno (set_authenticated_seqno c s)
      (s + ((c.last_seqno - s) / c.window_size) * c.window_size)).1
      = false := by
  obtain ⟨hws, hidx, hlen, hlast⟩ := hwf
  have hd := set_authenticated_seqno_inwin c s hin (by omega)
  have hb : usub32 c.seqno_index (c.last_seqno - s) % c.window_size
      = (c.seqno_index + c.window_size - (c.last_seqno - s) %
        c.window_size) % c.window_size := by
    rw [hws, usub32_mod128 _ _ (by omega)]
  rw [hws] at hbelow hidx hlen ⊢
  rw [hws] at hd hb
  refine ⟨by rw [hd, hb], by omega, by omega, by omega, by omega, ?_⟩
  rw [hd]
  have hvr := verify_inwin_eq
    (set_window_bit c (usub32 c.seqno_index (c.last_seqno - s) % 128) true)
    (s + ((c.last_seqno - s) / 128) * 128) hin
    (show 0 < s + ((c.last_seqno - s) / 128) * 128 by omega)
    (show s + ((c.last_seqno - s) / 128) * 128 ≤ c.last_seqno by omega)
    (show c.last_seqno - (s + ((c.last_seqno - s) / 128) * 128) <
      c.window_size by omega)
    hws hlast
  rw [hvr]
  have hslot : slot
      (set_window_bit c (usub32 c.seqno_index (c.last_seqno - s) % 128) true)
      (s + ((c.last_seqno - s) / 128) * 128)
      = usub32 c.seqno_index (c.last_seqno - s) % 128 := by
    show (c.seqno_index + c.window_size - (c.last_seqno -
      (s + ((c.last_seqno - s) / 128) * 128))) % c.window_size = _
    rw [hws, hb]
    omega
  rw [hslot]
  have hset : get_window_bit
      (set_window_bit c (usub32 c.seqno_index (c.last_seqno - s) % 128) true)
      (usub32 c.seqno_index (c.last_seqno - s) % 128) = true :=
    getD_set_self _ _ _ (by rw [hlen]; exact Nat.mod_lt _ (by omega))
  rw [hset]
  rfl

set_option maxRecDepth 40000 in
/-- C10 witness: on the context obtained by committing 200 on a fresh
inbound context, the below-window commit of 1 sets the aliased slot. -/
theorem set_authenticated_seqno_below_window_witness :
    (verify_seqno (set_authenticated_seqno
      (set_authenticated_seqno (freshContext true) 200) 1)
      (1 + (((set_authenticated_seqno (freshContext true) 200).last_seqno -
        1) / (set_authenticated_seqno (freshContext true) 200).window_size) *
        (set_authenticated_seqno (freshContext true) 200).window_size)).1
      = false :=
  (set_authenticated_seqno_below_window
    (set_authenticated_seqno (freshContext true) 200) 1 (by decide)
    (by decide) (by decide) (by decide)).2.2.2.2.2

/-- C9: construction yields no context exactly when the encryption
algorithm is not `ENCR_AES_CBC`, the integrity algorithm is none of the
four supported HMACs, or installing either key fails; on every failure the
handles acquired so far are exactly the ones released, and on success the
exposed context is the fully initialized fresh state (factory creation of a
supported primitive is modelled from the spec as succeeding). -/
theorem esp_context_create_spec (env : CryptoEnv) (enc_alg int_alg : Nat)
    (inbound : Bool) :
    ((esp_context_create env enc_alg int_alg inbound).ctx = none ↔
      (enc_alg ≠ ENCR_AES_CBC ∨
        (int_alg ≠ AUTH_HMAC_SHA1_96 ∧ int_alg ≠ AUTH_HMAC_SHA2_256_128 ∧
          int_alg ≠ AUTH_HMAC_SHA2_384_192 ∧
          int_alg ≠ AUTH_HMAC_SHA2_512_256) ∨
        env.enc_set_key_ok = false ∨ env.int_set_key_ok = false)) ∧
    ((esp_context_create env enc_alg int_alg inbound).ctx = none →
      ((esp_context_create env enc_alg int_alg inbound).crypter_acquired =
          (esp_context_create env enc_alg int_alg inbound).crypter_released ∧
        (esp_context_create env enc_alg int_alg inbound).signer_acquired =
          (esp_context_create env enc_alg int_alg inbound).signer_released)) ∧
    (∀ ctx,
      (esp_context_create env enc_alg int_alg inbound).ctx = some ctx →
      ctx = freshContext inbound) := by
  simp only [esp_context_create]
  split_ifs with h1 h2 h3 h4
  · simp only [Bool.not_eq_eq_eq_not, Bool.not_true, beq_eq_false_iff_ne]
      at h1
    exact ⟨iff_of_true rfl (Or.inl h1), fun _ => ⟨rfl, rfl⟩,
      fun ctx h => absurd h (by simp)⟩
  · simp only [Bool.not_eq_eq_eq_not, Bool.not_true] at h2
    exact ⟨iff_of_true rfl (Or.inr (Or.inr (Or.inl h2))),
      fun _ => ⟨rfl, rfl⟩, fun ctx h => absurd h (by simp)⟩
  · simp only [Bool.not_eq_eq_eq_not, Bool.not_true, Bool.or_eq_false_iff,
      beq_eq_false_iff_ne] at h3
    exact ⟨iff_of_true rfl (Or.inr (Or.inl
        ⟨h3.1.1.1, h3.1.1.2, h3.1.2, h3.2⟩)),
      fun _ => ⟨rfl, rfl⟩, fun ctx h => absurd h (by simp)⟩
  · simp only [Bool.not_eq_eq_eq_not, Bool.not_true] at h4
    exact ⟨iff_of_true rfl (Or.inr (Or.inr (Or.inr h4))),
      fun _ => ⟨rfl, rfl⟩, fun ctx h => absurd h (by simp)⟩
  · simp only [Bool.not_eq_eq_eq_not, Bool.not_true, Bool.not_false,
      beq_eq_false_iff_ne, Bool.or_eq_false_iff] at h1 h2 h3 h4
    push_neg at h1 h3
    refine ⟨iff_of_false (by simp) ?_, fun h => absurd h (by simp), ?_⟩
    · rintro (h | h | h | h)
      · exact h h1
      · exact h.2.2.2 (h3 ⟨⟨h.1, h.2.1⟩, h.2.2.1⟩)
      · exact h2 h
      · exact h4 h
    · intro ctx h
      injection h with h
      exact h.symm

/-- C9 witness: an unsupported encryption algorithm makes construction
fail. -/
theorem esp_context_create_spec_witness :
    (esp_context_create ⟨true, true⟩ 13 2 true).ctx = none :=
  (esp_context_create_spec ⟨true, true⟩ 13 2 true).1.mpr
    (Or.inl (by decide))

theorem set_last_ge (c : EspContext) (s : Nat) :
    c.last_seqno ≤ (set_authenticated_seqno c s).last_seqno := by
  cases hin : c.inbound
  · rw [set_authenticated_seqno_outbound c s hin]
  · by_cases hgt : s > c.last_seqno
    · rw [set_authenticated_seqno_advance c s hin hgt]
      exact le_of_lt hgt
    · rw [set_authenticated_seqno_inwin c s hin hgt]
      exact le_rfl

theorem commitAll_cons (c : EspContext) (a : Nat) (l : List Nat) :
    commitAll c (a :: l) = commitAll (set_authenticated_seqno c a) l := rfl

theorem commitAll_fields (l : List Nat) : ∀ c : EspContext,
    (commitAll c l).inbound = c.inbound ∧
    (commitAll c l).window_size = c.window_size ∧
    c.last_seqno ≤ (commitAll c l).last_seqno := by
  induction l with
  | nil => intro c; exact ⟨rfl, rfl, le_rfl⟩
  | cons a l ih =>
      intro c
      obtain ⟨hi, hw, hl⟩ := ih (set_authenticated_seqno c a)
      obtain ⟨si, sw, _⟩ := set_authenticated_seqno_fields c a
      refine ⟨?_, ?_, ?_⟩
      · rw [commitAll_cons, hi, si]
      · rw [commitAll_cons, hw, sw]
      · rw [commitAll_cons]
        exact le_trans (set_last_ge c a) hl

theorem WF_commitAll (l : List Nat) : ∀ c : EspContext, WF c →
    (∀ x ∈ l, x < 2 ^ 32) → WF (commitAll c l) := by
  induction l with
  | nil => intro c hwf _; exact hwf
  | cons a l ih =>
      intro c hwf hal
      rw [commitAll_cons]
      exact ih _ (WF_set_authenticated_seqno c a hwf (hal a (by simp)))
        (fun x hx => hal x (by simp [hx]))

theorem advance_facts (c : EspContext) (s : Nat) (hwf : WF c)
    (hin : c.inbound = true) (hgt : s > c.last_seqno) :
    (set_authenticated_seqno c s).last_seqno = s ∧
    (set_authenticated_seqno c s).seqno_index =
      (c.seqno_index + min (s - c.last_seqno) c.window_size) %
        c.window_size ∧
    (∀ j, j < c.window_size →
      get_window_bit (set_authenticated_seqno c s) j =
        if j = (c.seqno_index + min (s - c.last_seqno) c.window_size) %
            c.window_size then true
        else if ∃ t, t < min (s - c.last_seqno) c.window_size ∧
            j = (c.seqno_index + 1 + t) % c.window_size then false
        else get_window_bit c j) := by
  obtain ⟨hws, hidx, hlen, hlast⟩ := hwf
  have h0 : 0 < c.window_size := by omega
  have hd := set_authenticated_seqno_advance c s hin hgt
  have hdi := shiftWindow_seqno_index (min (s - c.last_seqno) c.window_size)
    c h0 hidx
  have hdlen : (shiftWindow c (min (s - c.last_seqno)
      c.window_size)).window.length = c.window_size := by
    rw [(shiftWindow_fields _ c).2.2.2, hlen]
  have hidx2 : (c.seqno_index + min (s - c.last_seqno) c.window_size) %
      c.window_size < c.window_size := Nat.mod_lt _ h0
  refine ⟨by rw [hd], by rw [hd]; exact hdi, ?_⟩
  intro j hj
  by_cases he : j = (c.seqno_index + min (s - c.last_seqno) c.window_size)
      % c.window_size
  · rw [if_pos he, hd, he, ← hdi]
    exact getD_set_self _ _ _ (by rw [hdlen, hdi]; exact hidx2)
  · rw [if_neg he]
    have hne : (shiftWindow c (min (s - c.last_seqno)
        c.window_size)).seqno_index ≠ j := by
      rw [hdi]; exact fun h => he h.symm
    have hgw : get_window_bit (set_authenticated_seqno c s) j =
        get_window_bit (shiftWindow c (min (s - c.last_seqno)
          c.window_size)) j := by
      rw [hd]
      exact getD_set_ne _ _ _ _ hne
    rw [hgw, shiftWindow_getD _ c j h0 hlen hj]

theorem commit_sets_own_bit (c : EspContext) (s : Nat) (hwf : WF c)
    (hin : c.inbound = true) (hs : s < 2 ^ 32) (h0 : 0 < s)
    (_hle : s ≤ (set_authenticated_seqno c s).last_seqno)
    (hwin : (set_authenticated_seqno c s).last_seqno - s < c.window_size) :
    (verify_seqno (set_authenticated_seqno c s) s).1 = false := by
  obtain ⟨hws, hidx, hlen, hlast⟩ := hwf
  have hfld := set_authenticated_seqno_fields c s
  have hXin : (set_authenticated_seqno c s).inbound = true := by
    rw [hfld.1]; exact hin
  have hXws : (set_authenticated_seqno c s).window_size = c.window_size :=
    hfld.2.1
  by_cases hgt : s > c.last_seqno
  · obtain ⟨hXlast, hXidx, hXbits⟩ :=
      advance_facts c s ⟨hws, hidx, hlen, hlast⟩ hin hgt
    rw [verify_inwin_eq _ s hXin h0 (by rw [hXlast])
      (by rw [hXlast, hXws]; omega) (by rw [hXws]; exact hws)
      (by rw [hXlast]; exact hs)]
    have hslot : slot (set_authenticated_seqno c s) s =
        (c.seqno_index + min (s - c.last_seqno) c.window_size) %
          c.window_size := by
      unfold slot
      rw [hXidx, hXlast, hXws, hws]
      omega
    rw [hslot, hXbits _ (Nat.mod_lt _ (by omega)), if_pos rfl]
    rfl
  · have hIW := set_authenticated_seqno_inwin c s hin hgt
    have hXlast : (set_authenticated_seqno c s).last_seqno = c.last_seqno :=
      by rw [hIW]; rfl
    have hXidx : (set_authenticated_seqno c s).seqno_index = c.seqno_index :=
      by rw [hIW]; rfl
    have hwin2 : c.last_seqno - s < c.window_size := by
      rw [hXlast] at hwin; exact hwin
    rw [verify_inwin_eq _ s hXin h0 (by rw [hXlast]; omega)
      (by rw [hXlast, hXws]; exact hwin2) (by rw [hXws]; exact hws)
      (by rw [hXlast]; exact hlast)]
    have hsl : slot (set_authenticated_seqno c s) s =
        usub32 c.seqno_index (c.last_seqno - s) % c.window_size := by
      unfold slot
      rw [hXidx, hXlast, hXws, hws, usub32_mod128 _ _ (by omega)]
      omega
    have hb : get_window_bit (set_authenticated_seqno c s)
        (usub32 c.seqno_index (c.last_seqno - s) % c.window_size) = true := by
      rw [hIW]
      exact getD_set_self _ _ _
        (by rw [hlen]; exact Nat.mod_lt _ (by omega))
    rw [hsl, hb]
    rfl

theorem verify_false_step (c : EspContext) (a s : Nat) (hwf : WF c)
    (hin : c.inbound = true) (ha : a < 2 ^ 32) (h0 : 0 < s)
    (hle : s ≤ c.last_seqno) (hwin : c.last_seqno - s < c.window_size)
    (hv : (verify_seqno c s).1 = false)
    (hstill : (set_authenticated_seqno c a).last_seqno - s < c.window_size) :
    (s ≤ (set_authenticated_seqno c a).last_seqno ∧
      (set_authenticated_seqno c a).last_seqno - s <
        (set_authenticated_seqno c a).window_size) ∧
    (verify_seqno (set_authenticated_seqno c a) s).1 = false := by
  obtain ⟨hws, hidx, hlen, hlast⟩ := hwf
  have hfld := set_authenticated_seqno_fields c a
  have hXin : (set_authenticated_seqno c a).inbound = true := by
    rw [hfld.1]; exact hin
  have hXws : (set_authenticated_seqno c a).window_size = c.window_size :=
    hfld.2.1
  have hXge : c.last_seqno ≤ (set_authenticated_seqno c a).last_seqno :=
    set_last_ge c a
  have hbit : get_window_bit c (slot c s) = true := by
    have h := verify_inwin_eq c s hin h0 hle hwin hws hlast
    rw [h] at hv
    simpa using hv
  have hslt : slot c s < c.window_size := by
    unfold slot; exact Nat.mod_lt _ (by omega)
  refine ⟨⟨by omega, by rw [hXws]; exact hstill⟩, ?_⟩
  by_cases hgt : a > c.last_seqno
  · obtain ⟨hXlast, hXidx, hXbits⟩ :=
      advance_facts c a ⟨hws, hidx, hlen, hlast⟩ hin hgt
    have hstill2 : a - s < c.window_size := by rw [hXlast] at hstill; exact hstill
    have hM : min (a - c.last_seqno) c.window_size = a - c.last_seqno :=
      min_eq_left (by omega)
    rw [verify_inwin_eq _ s hXin h0 (by rw [hXlast]; omega)
      (by rw [hXlast, hXws]; exact hstill2) (by rw [hXws]; exact hws)
      (by rw [hXlast]; exact ha)]
    have hslot : slot (set_authenticated_seqno c a) s = slot c s := by
      unfold slot
      rw [hXidx, hXlast, hXws, hM, hws]
      rw [hws] at hidx hstill2
      omega
    have hne : slot c s ≠
        (c.seqno_index + min (a - c.last_seqno) c.window_size) %
          c.window_size := by
      unfold slot
      rw [hM, hws]
      rw [hws] at hidx hstill2 hwin
      omega
    have hncl : ¬∃ t, t < min (a - c.last_seqno) c.window_size ∧
        slot c s = (c.seqno_index + 1 + t) % c.window_size := by
      rw [hM]
      rintro ⟨t, ht, he⟩
      unfold slot at he
      rw [hws] at he hidx hstill2 hwin
      omega
    rw [hslot, hXbits _ hslt, if_neg hne, if_neg hncl, hbit]
    rfl
  · have hIW := set_authenticated_seqno_inwin c a hin hgt
    have hXlast : (set_authenticated_seqno c a).last_seqno = c.last_seqno :=
      by rw [hIW]; rfl
    have hXidx : (set_authenticated_seqno c a).seqno_index = c.seqno_index :=
      by rw [hIW]; rfl
    rw [verify_inwin_eq _ s hXin h0 (by rw [hXlast]; exact hle)
      (by rw [hXlast, hXws]; exact hwin) (by rw [hXws]; exact hws)
      (by rw [hXlast]; exact hlast)]
    have hslot : slot (set_authenticated_seqno c a) s = slot c s := by
      unfold slot
      rw [hXidx, hXlast, hXws]
    have hb2 : get_window_bit (set_authenticated_seqno c a) (slot c s)
        = true := by
      rw [hIW]
      exact getD_set_true_of_true _ _ _ hbit
    rw [hslot, hb2]
    rfl

theorem verify_false_commits (l : List Nat) : ∀ (c : EspContext) (s : Nat),
    WF c → c.inbound = true → (∀ x ∈ l, x < 2 ^ 32) →
    0 < s → s ≤ c.last_seqno → c.last_seqno - s < c.window_size →
    (verify_seqno c s).1 = false →
    (commitAll c l).last_seqno - s < c.window_size →
    (verify_seqno (commitAll c l) s).1 = false := by
  induction l with
  | nil =>
      intro c s _ _ _ _ _ _ hv _
      exact hv
  | cons a l ih =>
      intro c s hwf hin hal h0 hle hwin hv hstill
      rw [commitAll_cons] at hstill ⊢
      have ha : a < 2 ^ 32 := hal a (by simp)
      have hXws : (set_authenticated_seqno c a).window_size = c.window_size :=
        (set_authenticated_seqno_fields c a).2.1
      have hmono : (set_authenticated_seqno c a).last_seqno ≤
          (commitAll (set_authenticated_seqno c a) l).last_seqno :=
        (commitAll_fields l _).2.2
      obtain ⟨⟨hle2, hwin2⟩, hv2⟩ := verify_false_step c a s hwf hin ha h0
        hle hwin hv (by omega)
      exact ih (set_authenticated_seqno c a) s
        (WF_set_authenticated_seqno c a hwf ha)
        (by rw [(set_authenticated_seqno_fields c a).1]; exact hin)
        (fun x hx => hal x (by simp [hx])) h0 hle2 hwin2 hv2
        (by rw [hXws]; exact hstill)

set_option maxRecDepth 100000 in
/-- C7 counterexample: from a fresh inbound context, after the commit
sequence `[200, 1]` the seqno 129 is inside the window and rejected by
`verify_seqno`, yet 129 was never an input; moreover the input 1 was below
the window when committed.  So the set of rejected seqnos differs from the
set of distinct inputs that were in-window when committed. -/
theorem replay_set_counterexample :
    (verify_seqno (commitAll (freshContext true) [200, 1]) 129).1 = false ∧
    ¬ (129 ∈ ([200, 1] : List Nat)) ∧
    InWindow (commitAll (freshContext true) [200, 1]) 129 ∧
    ¬ InWindow (commitAll (freshContext true) [200]) 1 := by
  decide

/-- C7 (amended): commits are idempotent: committing an in-window seqno
twice in a row yields the same state as committing it once.  The set
equality of the original claim fails (a below-window commit can set the
slot of an aliased in-window seqno), but the sound inclusion holds: every
input `s` that lay inside the window immediately after its own commit and
still lies inside the window after the remaining commits is rejected by a
subsequent `verify_seqno`. -/
theorem replay_idempotent_and_sound :
    (∀ (c : EspContext) (s : Nat), WF c → c.inbound = true → 0 < s →
      s ≤ c.last_seqno → c.last_seqno - s < c.window_size →
      set_authenticated_seqno (set_authenticated_seqno c s) s =
        set_authenticated_seqno c s) ∧
    (∀ (c : EspContext) (s : Nat) (l₁ l₂ : List Nat), WF c →
      c.inbound = true → s < 2 ^ 32 → 0 < s →
      (∀ x ∈ l₁, x < 2 ^ 32) → (∀ x ∈ l₂, x < 2 ^ 32) →
      s ≤ (set_authenticated_seqno (commitAll c l₁) s).last_seqno →
      (set_authenticated_seqno (commitAll c l₁) s).last_seqno - s <
        c.window_size →
      (commitAll c (l₁ ++ s :: l₂)).last_seqno - s < c.window_size →
      (verify_seqno (commitAll c (l₁ ++ s :: l₂)) s).1 = false) := by
  constructor
  · intro c s hwf hin h0 hle hwin
    have hIW := set_authenticated_seqno_inwin c s hin (by omega)
    have hfld := set_authenticated_seqno_fields c s
    have hXin : (set_authenticated_seqno c s).inbound = true := by
      rw [hfld.1]; exact hin
    have hXlast : (set_authenticated_seqno c s).last_seqno = c.last_seqno :=
      by rw [hIW]; rfl
    have hIW2 := set_authenticated_seqno_inwin (set_authenticated_seqno c s)
      s hXin (by rw [hXlast]; omega)
    rw [hIW2, hIW]
    show set_window_bit (set_window_bit c (usub32 c.seqno_index
        (c.last_seqno - s) % c.window_size) true)
      (usub32 c.seqno_index (c.last_seqno - s) % c.window_size) true
      = set_window_bit c (usub32 c.seqno_index (c.last_seqno - s) %
        c.window_size) true
    simp only [set_window_bit]
    rw [List.set_set]
  · intro c s l₁ l₂ hwf hin hs h0 hal1 hal2 hle1 hwin1 hstill
    have hfld1 := commitAll_fields l₁ c
    have hwf1 : WF (commitAll c l₁) := WF_commitAll l₁ c hwf hal1
    have hin1 : (commitAll c l₁).inbound = true := by
      rw [hfld1.1]; exact hin
    have happ : commitAll c (l₁ ++ s :: l₂) =
        commitAll (set_authenticated_seqno (commitAll c l₁) s) l₂ := by
      unfold commitAll
      rw [List.foldl_append, List.foldl_cons]
    rw [happ] at hstill ⊢
    have hws1 : (commitAll c l₁).window_size = c.window_size := hfld1.2.1
    have hfld2 := set_authenticated_seqno_fields (commitAll c l₁) s
    have hwf2 : WF (set_authenticated_seqno (commitAll c l₁) s) :=
      WF_set_authenticated_seqno (commitAll c l₁) s hwf1 hs
    have hin2 : (set_authenticated_seqno (commitAll c l₁) s).inbound
        = true := by
      rw [hfld2.1]; exact hin1
    have hws2 : (set_authenticated_seqno (commitAll c l₁) s).window_size
        = c.window_size := by
      rw [hfld2.2.1, hws1]
    have hv2 : (verify_seqno (set_authenticated_seqno (commitAll c l₁) s)
        s).1 = false :=
      commit_sets_own_bit (commitAll c l₁) s hwf1 hin1 hs h0 hle1
        (by rw [hws1]; exact hwin1)
    exact verify_false_commits l₂ _ s hwf2 hin2 hal2 h0 hle1
      (by rw [hws2]; exact hwin1) hv2 (by rw [hws2]; exact hstill)

set_option maxRecDepth 100000 in
/-- C7 witness: both parts applied to concrete contexts: double-committing
5 after a commit of 10 equals a single commit, and 5 is rejected after the
trace `[10, 5, 7]`. -/
theorem replay_idempotent_and_sound_witness :
    set_authenticated_seqno (set_authenticated_seqno
        (set_authenticated_seqno (freshContext true) 10) 5) 5 =
      set_authenticated_seqno
        (set_authenticated_seqno (freshContext true) 10) 5 ∧
    (verify_seqno (commitAll (freshContext true) ([10] ++ 5 :: [7])) 5).1
      = false :=
  ⟨replay_idempotent_and_sound.1
      (set_authenticated_seqno (freshContext true) 10) 5
      (by decide) (by decide) (by decide) (by decide) (by decide),
    replay_idempotent_and_sound.2 (freshContext true) 5 [10] [7]
      (by decide) rfl (by decide) (by decide) (by decide) (by decide)
      (by decide) (by decide) (by decide)⟩

end EspCtx
